import Mathlib

/-!
Verification of the sharded storage layer of PythonActivityStreams
(`citrine/storage/group.py`): the `Group` class, its `groupfn` routing
decorator, the `GroupMeta` aggregation object and the static factory
`Group.new`.

The shard type `Collection` lives in `citrine/storage/collection.py`,
which is outside the analysed sources; those definitions are modelled
from the specification (section 6, "Consumed from the Shard collaborator")
and are marked as such in their doc comments.  Everything in the `Group`
namespace is translated directly from `group.py`.

Python conventions used by the embedding:
* a Python exception becomes an `Except PyErr` result;
* a Python `dict` becomes an association list in insertion order
  (`List (Int × Nat)` for the `custom` layout of `Group.new`);
* byte strings (keys) become `List Nat` and `int.from_bytes` becomes the
  big-endian fold `intEncoding`;
* in-place mutation of the caller-supplied `custom` dict is rendered by
  `Group.new` returning the final state of that mapping alongside the
  group.
-/

namespace Citrine

/-- The Python exceptions that the modelled code can raise. -/
inductive PyErr where
  | valueError
  | keyError
  | attributeError
  | zeroDivisionError
  | capacityError
  deriving DecidableEq, Repr

/-- Keys are byte strings (the result of `str.encode()`). -/
abbrev Key := List Nat

/-- Stored values; the storage layer is value-agnostic, `Nat` is enough. -/
abbrev Val := Nat

/-- `int.from_bytes(key.encode())`: big-endian integer encoding of a byte
string. -/
def intEncoding (k : Key) : Nat :=
  k.foldl (fun a b => 256 * a + b) 0

/-- Modelled from the spec: the shard type `Collection` of
`citrine/storage/collection.py` is absent from the analysed sources.  Per
section 6 a shard is a capacity-bounded ordered key-value container with a
unique identifier (`uuid`), a maximum capacity (`max_size`), a strict-mode
flag fixed at construction, and its current entries. -/
structure Collection where
  uuid : Nat
  max_size : Nat
  strict : Bool
  contents : List (Key × Val)
  deriving DecidableEq, Repr

namespace Collection

/-- Modelled from the spec: `Collection(max_size=...)` as `Group.new` calls
it — a fresh identifier, the requested capacity, no entries.  The factory
call site in `group.py` passes no `strict` argument, so the constructed
shard keeps the constructor's non-strict default (the spec's factory
default is `strict = false`).  Freshness of `uuid4` is modelled by letting
the caller supply a distinct index. -/
def create (uuid : Nat) (max_size : Nat) : Collection :=
  ⟨uuid, max_size, false, []⟩

/-- Modelled from the spec: a shard's size is its number of entries. -/
def size (c : Collection) : Nat :=
  c.contents.length

/-- Association-list lookup, first match wins (ordered-map read). -/
def lookup (c : Collection) (k : Key) : Option Val :=
  match c.contents.find? (fun p => p.1 = k) with
  | some p => some p.2
  | none => none

/-- Modelled from the spec: `get(key, default)` returns the stored value or
the caller-supplied default. -/
def get (c : Collection) (k : Key) (default : Val) : Val :=
  (c.lookup k).getD default

/-- Replace the value stored at an existing key. -/
def setKey (l : List (Key × Val)) (k : Key) (v : Val) : List (Key × Val) :=
  l.map (fun p => if p.1 = k then (k, v) else p)

/-- Modelled from the spec: `insert(key, value)` stores the pair; a write
that would push a strict shard over its capacity fails with the
capacity-exceeded error and changes nothing.  Overwriting an existing key
does not grow the shard and is always accepted. -/
def insert (c : Collection) (k : Key) (v : Val) : Except PyErr Collection :=
  match c.lookup k with
  | some _ => .ok { c with contents := setKey c.contents k v }
  | none =>
      if c.strict ∧ c.max_size < c.size + 1 then
        .error .capacityError
      else
        .ok { c with contents := c.contents ++ [(k, v)] }

/-- Modelled from the spec: `pop_item()` removes and returns one entry, or
fails with the empty-collection error (a `KeyError` in Python) when the
shard is empty. -/
def popitem (c : Collection) : Except PyErr ((Key × Val) × Collection) :=
  match c.contents with
  | [] => .error .keyError
  | p :: rest => .ok (p, { c with contents := rest })

/-- Modelled from the spec: `clear()` removes every entry of the shard. -/
def clear (c : Collection) : Collection :=
  { c with contents := [] }

/-- Modelled from the spec: a shard's health status is an ordered severity
scale derived from its usage ratio by thresholds internal to the shard
(0 = nominal, 1 = warning, 2 = alert, 3 = critical). -/
def status (c : Collection) : Nat :=
  if 10 * c.size ≥ 9 * c.max_size then 3
  else if 10 * c.size ≥ 8 * c.max_size then 2
  else if 10 * c.size ≥ 7 * c.max_size then 1
  else 0

end Collection

/-- Modelled from the spec: `DEFAULT_MAX`, the default shard capacity
imported from `citrine.storage.collection` (a named configuration
constant; its concrete value is immaterial to the claims). -/
def DEFAULT_MAX : Nat := 5000

/-- `Group`: an ordered sequence of `Collection` shards, fixed at
construction (`self.___collections___` in `group.py`). -/
structure Group where
  collections : List Collection
  deriving DecidableEq, Repr

namespace Group

/-- `Group.__init__`: rejects collections with repeating UUID values by
comparing the number of distinct UUIDs (`len({col.uuid for col in
collections})`, rendered as the length of the deduplicated list) with the
number of collections, raising `KeyError` on a mismatch; otherwise stores
the sequence. -/
def init (collections : List Collection) : Except PyErr Group :=
  if (collections.map Collection.uuid).dedup.length ≠ collections.length then
    .error .keyError
  else
    .ok ⟨collections⟩

/-- The `groupfn` decorator's routing step: it reads the key from the
call's arguments (`kwargs.get('key', None if not args else args[0])`) —
`none` when the decorated method was called without arguments — then
computes `int.from_bytes(key.encode()) % len(obj.collections)`.
`None.encode()` raises `AttributeError`; a modulus of zero raises
`ZeroDivisionError`. -/
def route (g : Group) (key : Option Key) : Except PyErr Nat :=
  match key with
  | none => .error .attributeError
  | some k =>
      if g.collections.length = 0 then .error .zeroDivisionError
      else .ok (intEncoding k % g.collections.length)

/-- `GroupMeta.size`, exposed as `Group.size`: the sum of all shard
sizes. -/
def size (g : Group) : Nat :=
  (g.collections.map Collection.size).sum

/-- `GroupMeta.status`, exposed as `Group.status`: the maximum of the
shards' current statuses, recomputed on every read (`max(collection.status
for collection in self.collections)`; Python's `max` raises `ValueError`
on an empty sequence). -/
def status (g : Group) : Except PyErr Nat :=
  match g.collections.map Collection.status with
  | [] => .error .valueError
  | s :: rest => .ok (rest.foldl max s)

/-- `Group.get` under `@groupfn`: route on the key, then
`Collection.get(collection, key, default)` on the routed shard; routing
errors propagate unchanged. -/
def get (g : Group) (k : Key) (default : Val) : Except PyErr Val :=
  match g.route (some k) with
  | .error e => .error e
  | .ok i => .ok ((g.collections.getD i (Collection.create 0 0)).get k default)

/-- `Group.insert` under `@groupfn`: route on the key, then
`Collection.insert(collection, key, value)` on the routed shard; shard
errors propagate unchanged. -/
def insert (g : Group) (k : Key) (v : Val) : Except PyErr Group :=
  match g.route (some k) with
  | .error e => .error e
  | .ok i =>
      match (g.collections.getD i (Collection.create 0 0)).insert k v with
      | .error e => .error e
      | .ok c => .ok ⟨g.collections.set i c⟩

/-- `Group.popitem` under `@groupfn`: `popitem` takes no arguments, so the
decorator's key extraction yields `None` and routing fails before any
shard is consulted. -/
def popitem (g : Group) : Except PyErr ((Key × Val) × Group) :=
  match g.route none with
  | .error e => .error e
  | .ok i =>
      match (g.collections.getD i (Collection.create 0 0)).popitem with
      | .error e => .error e
      | .ok (p, c) => .ok (p, ⟨g.collections.set i c⟩)

/-- `Group.clear` as written in `group.py`: the method body is
`return Collection.clear` with no `@groupfn` decorator and no call — it
returns the unbound function object and touches no shard, so the group's
state is unchanged. -/
def clear (g : Group) : Group :=
  g

/-- Python truthiness of the optional `size` argument: `not size` is true
exactly for `None` and `0`. -/
def falsySize : Option Int → Bool
  | none => true
  | some n => n == 0

/-- Maximum of a list of integers, `max(custom.keys())`; meaningful on the
nonempty lists Python's `max` accepts. -/
def listMax (l : List Int) : Int :=
  l.foldl max (l.headD 0)

/-- The effective shard count of the custom branch of `Group.new`: the
given `size` unless it is falsy, in which case `max(custom.keys())`. -/
def effectiveSize (size : Option Int) (keys : List Int) : Int :=
  if falsySize size then listMax keys else size.getD 0

/-- `range(size)` as a list of the integers `0, 1, ..., size-1` (the loop
variable of the gap-filling loop compares against the dict's integer
keys). -/
def intRange (n : Nat) : List Int :=
  (List.range n).map (fun (m : Nat) => (m : Int))

/-- The gap-filling loop of `Group.new`: `for key in range(size): if key
not in keys: custom[key] = max_collection_size` — appends, in increasing
key order, a default-capacity entry for every index of `range(size)`
absent from the original keys. -/
def fillGaps (n : Nat) (mcs : Nat) (custom : List (Int × Nat)) :
    List (Int × Nat) :=
  custom ++ ((intRange n).filter
      (fun k => !(decide (k ∈ custom.map Prod.fst)))).map
    (fun k => (k, mcs))

/-- Build one fresh `Collection(max_size=cap)` per listed capacity, in
order (`tuple(Collection(max_size=...) for ...)`); `uuid4` freshness is
modelled by the position index. -/
def freshCollections (caps : List Nat) : List Collection :=
  caps.enum.map (fun p => Collection.create p.1 p.2)

/-- `Group.new`: the static factory.  Translated branch for branch from
`group.py`:
* no (or empty) `custom`: `if not size: raise ValueError`, else build
  `size` identical shards — `range(size)` of a negative `size` is empty;
* `custom` present: `if not size: size = max(custom.keys())`; then
  `if size and size < max(custom.keys()): raise KeyError`; then the gap
  fill loop mutates `custom` in place; finally one shard per entry of the
  mutated dict, in insertion order, each `Collection(max_size=value)`.
The `strict` parameter is accepted but appears nowhere in the body.  The
second component of the result is the caller's `custom` mapping as the
call leaves it (Python mutates it in place). -/
def new (size : Option Int) (max_collection_size : Nat) (strict : Bool)
    (custom : Option (List (Int × Nat))) :
    Except PyErr (Group × List (Int × Nat)) :=
  match custom with
  | none =>
      if falsySize size then .error .valueError
      else
        match init (freshCollections
            (List.replicate (size.getD 0).toNat max_collection_size)) with
        | .error e => .error e
        | .ok g => .ok (g, [])
  | some l =>
      if l.isEmpty then
        if falsySize size then .error .valueError
        else
          match init (freshCollections
              (List.replicate (size.getD 0).toNat max_collection_size)) with
          | .error e => .error e
          | .ok g => .ok (g, l)
      else
        let keys := l.map Prod.fst
        let sz : Int := effectiveSize size keys
        if sz ≠ 0 ∧ sz < listMax keys then .error .keyError
        else
          let filled := fillGaps sz.toNat max_collection_size l
          match init (freshCollections (filled.map Prod.snd)) with
          | .error e => .error e
          | .ok g => .ok (g, filled)

end Group

/-! ### Helper lemmas -/

theorem le_foldl_max {α} [LinearOrder α] (l : List α) (a : α) :
    a ≤ l.foldl max a := by
  induction l generalizing a with
  | nil => exact le_refl a
  | cons b t ih => exact le_trans (le_max_left a b) (ih (max a b))

theorem foldl_max_le_of_mem {α} [LinearOrder α] {l : List α} {x : α}
    (hx : x ∈ l) (a : α) : x ≤ l.foldl max a := by
  induction l generalizing a with
  | nil => cases hx
  | cons b t ih =>
      rcases List.mem_cons.mp hx with h | h
      · subst h
        exact le_trans (le_max_right a x) (le_foldl_max t (max a x))
      · exact ih h (max a b)

theorem foldl_max_mem {α} [LinearOrder α] (l : List α) (a : α) :
    l.foldl max a = a ∨ l.foldl max a ∈ l := by
  induction l generalizing a with
  | nil => exact Or.inl rfl
  | cons b t ih =>
      have hfold : (b :: t).foldl max a = t.foldl max (max a b) := rfl
      rcases ih (max a b) with h | h
      · rcases le_total a b with hab | hba
        · refine Or.inr ?_
          rw [hfold, h, max_eq_right hab]
          exact List.mem_cons_self b t
        · refine Or.inl ?_
          rw [hfold, h, max_eq_left hba]
      · exact Or.inr (List.mem_cons_of_mem b (hfold ▸ h))

theorem listMax_mem {l : List Int} (h : l ≠ []) : Group.listMax l ∈ l := by
  cases l with
  | nil => exact absurd rfl h
  | cons b t =>
      unfold Group.listMax
      simp only [List.headD_cons, List.foldl_cons, max_self]
      rcases foldl_max_mem t b with h' | h'
      · simp [h']
      · exact List.mem_cons_of_mem b h'

theorem le_listMax {l : List Int} {x : Int} (hx : x ∈ l) :
    x ≤ Group.listMax l := by
  cases l with
  | nil => cases hx
  | cons b t =>
      unfold Group.listMax
      simp only [List.headD_cons, List.foldl_cons, max_self]
      rcases List.mem_cons.mp hx with h | h
      · subst h; exact le_foldl_max t x
      · exact foldl_max_le_of_mem h b

theorem find?_setKey (l : List (Key × Val)) (k : Key) (v : Val)
    (h : (l.find? (fun p => p.1 = k)).isSome = true) :
    (Collection.setKey l k v).find? (fun p => p.1 = k) = some (k, v) := by
  induction l with
  | nil => simp at h
  | cons p rest ih =>
      by_cases hp : p.1 = k
      · have hset : Collection.setKey (p :: rest) k v
            = (k, v) :: Collection.setKey rest k v := by
          simp [Collection.setKey, hp]
        rw [hset, List.find?_cons_of_pos _ (by simp)]
      · have hset : Collection.setKey (p :: rest) k v
            = p :: Collection.setKey rest k v := by
          simp [Collection.setKey, hp]
        have h' : (rest.find? (fun q => q.1 = k)).isSome = true := by
          rw [List.find?_cons_of_neg _ (by simpa using hp)] at h
          exact h
        rw [hset, List.find?_cons_of_neg _ (by simpa using hp)]
        exact ih h'

theorem lookup_eq_some_isSome {c : Collection} {k : Key} {w : Val}
    (h : c.lookup k = some w) :
    (c.contents.find? (fun p => p.1 = k)).isSome = true := by
  unfold Collection.lookup at h
  cases hf : c.contents.find? (fun p => p.1 = k) with
  | some q => simp
  | none => rw [hf] at h; simp at h

theorem lookup_eq_none_find? {c : Collection} {k : Key}
    (h : c.lookup k = none) :
    c.contents.find? (fun p => p.1 = k) = none := by
  unfold Collection.lookup at h
  cases hf : c.contents.find? (fun p => p.1 = k) with
  | some q => rw [hf] at h; simp at h
  | none => rfl

/-- A successful `Collection.insert` makes the inserted value the one the
shard stores at that key. -/
theorem Collection.lookup_insert {c c' : Collection} {k : Key} {v : Val}
    (h : c.insert k v = .ok c') : c'.lookup k = some v := by
  unfold Collection.insert at h
  cases hl : c.lookup k with
  | some w =>
      rw [hl] at h
      split at h
      next heq =>
        cases h
        unfold Collection.lookup
        rw [find?_setKey c.contents k v (lookup_eq_some_isSome hl)]
      next heq => simp at heq
  | none =>
      rw [hl] at h
      split at h
      next heq => simp at heq
      next heq =>
        split at h
        · exact absurd h (by simp)
        · cases h
          unfold Collection.lookup
          rw [List.find?_append, lookup_eq_none_find? hl]
          simp [List.find?_cons_of_pos]

/-- A successful `Collection.insert` is read back by `Collection.get` for
any default. -/
theorem Collection.get_insert {c c' : Collection} {k : Key} {v d : Val}
    (h : c.insert k v = .ok c') : c'.get k d = v := by
  unfold Collection.get
  rw [Collection.lookup_insert h]
  rfl

theorem mem_intRange {n : Nat} {k : Int} :
    k ∈ Group.intRange n ↔ 0 ≤ k ∧ k < (n : Int) := by
  unfold Group.intRange
  constructor
  · intro h
    rcases List.mem_map.mp h with ⟨m, hm, rfl⟩
    exact ⟨Int.natCast_nonneg m, by have := List.mem_range.mp hm; omega⟩
  · rintro ⟨h0, hlt⟩
    exact List.mem_map.mpr
      ⟨k.toNat, List.mem_range.mpr (by omega), Int.toNat_of_nonneg h0⟩

theorem intRange_nodup (n : Nat) : (Group.intRange n).Nodup :=
  (List.nodup_range n).map (fun _ _ h => Nat.cast_injective h)

theorem freshCollections_length (caps : List Nat) :
    (Group.freshCollections caps).length = caps.length := by
  simp [Group.freshCollections]

theorem freshCollections_uuids (caps : List Nat) :
    (Group.freshCollections caps).map Collection.uuid
      = List.range caps.length := by
  unfold Group.freshCollections
  rw [List.map_map]
  exact List.enum_map_fst caps

/-- `Group.new` hands `Group.__init__` freshly created collections with
pairwise distinct identifiers, so the duplicate check always passes. -/
theorem init_freshCollections (caps : List Nat) :
    Group.init (Group.freshCollections caps)
      = .ok ⟨Group.freshCollections caps⟩ := by
  have hcond : ¬ ((Group.freshCollections caps).map Collection.uuid).dedup.length
      ≠ (Group.freshCollections caps).length := by
    rw [freshCollections_uuids,
      List.Nodup.dedup (List.nodup_range caps.length),
      List.length_range, freshCollections_length]
    exact fun hne => hne rfl
  unfold Group.init
  rw [if_neg hcond]

/-- Characterisation of a successful custom-layout call of `Group.new`:
the size-versus-highest-key check passed, the group is built from one
fresh collection per entry of the gap-filled mapping (in insertion
order), and the returned mapping is the gap-filled one. -/
theorem new_custom_ok (size : Option Int) (mcs : Nat) (strictFlag : Bool)
    (l : List (Int × Nat)) (g : Group) (c' : List (Int × Nat))
    (hne : l ≠ [])
    (h : Group.new size mcs strictFlag (some l) = .ok (g, c')) :
    ¬(Group.effectiveSize size (l.map Prod.fst) ≠ 0 ∧
        Group.effectiveSize size (l.map Prod.fst)
          < Group.listMax (l.map Prod.fst))
    ∧ g = ⟨Group.freshCollections ((Group.fillGaps
        (Group.effectiveSize size (l.map Prod.fst)).toNat mcs l).map
          Prod.snd)⟩
    ∧ c' = Group.fillGaps
        (Group.effectiveSize size (l.map Prod.fst)).toNat mcs l := by
  unfold Group.new at h
  have hemp : l.isEmpty = false := by
    cases l with
    | nil => exact absurd rfl hne
    | cons p t => rfl
  have h1 : (if l.isEmpty = true then
      (if Group.falsySize size = true then
        (Except.error PyErr.valueError : Except PyErr (Group × List (Int × Nat)))
      else
        match Group.init (Group.freshCollections
            (List.replicate (size.getD 0).toNat mcs)) with
        | .error e => .error e
        | .ok g0 => .ok (g0, l))
    else
      if Group.effectiveSize size (l.map Prod.fst) ≠ 0 ∧
          Group.effectiveSize size (l.map Prod.fst)
            < Group.listMax (l.map Prod.fst) then
        .error PyErr.keyError
      else
        match Group.init (Group.freshCollections
            ((Group.fillGaps (Group.effectiveSize size (l.map Prod.fst)).toNat
              mcs l).map Prod.snd)) with
        | .error e => .error e
        | .ok g0 => .ok (g0, Group.fillGaps
            (Group.effectiveSize size (l.map Prod.fst)).toNat mcs l))
      = .ok (g, c') := h
  rw [hemp] at h1
  rw [if_neg (show ¬(false = true) by simp)] at h1
  split at h1
  next hcond => exact absurd h1 (by simp)
  next hcond =>
    rw [init_freshCollections] at h1
    have hpair := Except.ok.inj h1
    exact ⟨hcond, (congrArg Prod.fst hpair).symm,
      (congrArg Prod.snd hpair).symm⟩

/-- Counting the gap-fill loop's survivors, general bound: when the keys
are distinct and all lie in `0 .. n-1`, exactly `keys.length` loop indices
are already present. -/
theorem length_filter_mem {keys : List Int} {n : Nat}
    (hnodup : keys.Nodup)
    (hsub : ∀ k ∈ keys, 0 ≤ k ∧ k < (n : Int)) :
    ((Group.intRange n).filter (fun m => decide (m ∈ keys))).length
      = keys.length := by
  have hnd1 : ((Group.intRange n).filter
      (fun m => decide (m ∈ keys))).Nodup :=
    (intRange_nodup n).filter _
  have hperm : ((Group.intRange n).filter
      (fun m => decide (m ∈ keys))).Perm keys := by
    refine (List.perm_ext_iff_of_nodup hnd1 hnodup).mpr ?_
    intro a
    rw [List.mem_filter]
    simp only [decide_eq_true_eq]
    exact ⟨fun hh => hh.2, fun hh => ⟨mem_intRange.mpr (hsub a hh), hh⟩⟩
  exact hperm.length_eq

/-- Counting the gap-fill loop's survivors when the loop runs up to the
highest key: every key except the highest one is seen, so `keys.length - 1`
loop indices are already present. -/
theorem length_filter_mem_below_max {keys : List Int}
    (hne : keys ≠ []) (hnodup : keys.Nodup)
    (hpos : ∀ k ∈ keys, 0 ≤ k) :
    ((Group.intRange (Group.listMax keys).toNat).filter
        (fun m => decide (m ∈ keys))).length = keys.length - 1 := by
  have hmx : Group.listMax keys ∈ keys := listMax_mem hne
  have hmx0 : 0 ≤ Group.listMax keys := hpos _ hmx
  have hnd1 : ((Group.intRange (Group.listMax keys).toNat).filter
      (fun m => decide (m ∈ keys))).Nodup :=
    (intRange_nodup _).filter _
  have hnd2 : (keys.erase (Group.listMax keys)).Nodup :=
    hnodup.erase _
  have hperm : ((Group.intRange (Group.listMax keys).toNat).filter
      (fun m => decide (m ∈ keys))).Perm
        (keys.erase (Group.listMax keys)) := by
    refine (List.perm_ext_iff_of_nodup hnd1 hnd2).mpr ?_
    intro a
    rw [List.mem_filter, List.Nodup.mem_erase_iff hnodup, mem_intRange]
    simp only [decide_eq_true_eq]
    constructor
    · rintro ⟨⟨h0, hlt⟩, hmem⟩
      refine ⟨fun heq => ?_, hmem⟩
      rw [heq] at hlt
      omega
    · rintro ⟨hne', hmem⟩
      have h0 : 0 ≤ a := hpos a hmem
      have hle : a ≤ Group.listMax keys := le_listMax hmem
      exact ⟨⟨h0, by omega⟩, hmem⟩
  rw [hperm.length_eq, List.length_erase_of_mem hmx]

/-! ### Claim theorems -/

/-- Claim C1: the spec says a successful `clear()` empties every shard and
brings the aggregate size to 0.  The code's `Group.clear` returns the
unbound `Collection.clear` function without applying it to any shard:
after building a one-shard group, inserting one entry and calling
`clear()`, the aggregate size is still 1, not 0. -/
theorem clear_leaves_entries :
    ((Group.new (some 1) 5 false none).bind
      (fun p => (p.1.insert [1] 7).map (fun g => (Group.clear g).size)))
      = .ok 1 := rfl

/-- Claim C2: the spec says the factory's `strict` flag is threaded
through to every shard so a strict group rejects an insert that overflows
a shard.  `Group.new` never passes `strict` to any `Collection`: a group
built with `strict = true` and per-shard capacity 1 has a non-strict
shard, and the second insert into that full shard is silently accepted,
growing the size to 2. -/
theorem strict_not_forwarded :
    ((Group.new (some 1) 1 true none).bind
        (fun p => (p.1.insert [1] 7).bind
          (fun g1 => (g1.insert [2] 8).map Group.size))) = .ok 2
    ∧ (Group.new (some 1) 1 true none).map
        (fun p => p.1.collections.map Collection.strict) = .ok [false] :=
  ⟨rfl, rfl⟩

/-- Claim C5: the spec says `custom = {0: 10, 2: 5}` with no explicit size
yields capacities 10, default, 5 at indices 0, 1, 2.  The code builds the
shard tuple in dict insertion order `{0: 10, 2: 5, 1: default}`, so index
1 gets capacity 5 and index 2 the default capacity (here 100). -/
theorem new_gap_fill_order :
    (Group.new none 100 false (some [((0 : Int), 10), (2, 5)])).map
      (fun p => p.1.collections.map Collection.max_size)
      = .ok [10, 5, 100] := rfl

/-- Claim C6: the spec says the factory fails whenever `size` is absent,
zero or negative, so every constructed group has at least one shard.  The
code's `if not size` guard only catches `None` and `0`: `size = -1`
passes it, `range(-1)` is empty, and a group with zero shards is returned
— on which every routed operation then divides by zero. -/
theorem new_negative_size :
    (Group.new (some (-1)) 100 false none).map
        (fun p => p.1.collections.length) = .ok 0
    ∧ Group.route ⟨[]⟩ (some [1]) = .error .zeroDivisionError :=
  ⟨rfl, rfl⟩

/-- Claim C3: key routing is the pure function
`shard_index = integer_encoding(key) mod shard_count`, a function of the
key and the construction-fixed shard count alone: a successful insert
leaves the routing of its key unchanged (same shard index before and
after), and the subsequent `get` of that key is dispatched to the shard
that received the insert and reads back the inserted value. -/
theorem insert_routes_get (g g' : Group) (k : Key) (v d : Val)
    (h : g.insert k v = .ok g') :
    g'.route (some k) = g.route (some k) ∧ g'.get k d = .ok v := by
  by_cases hlen : g.collections.length = 0
  · have hins : g.insert k v = .error .zeroDivisionError := by
      unfold Group.insert Group.route
      simp [hlen]
    rw [hins] at h
    exact absurd h (by simp)
  · have hpos : 0 < g.collections.length := Nat.pos_of_ne_zero hlen
    have hroute : g.route (some k)
        = .ok (intEncoding k % g.collections.length) := by
      unfold Group.route
      simp [hlen]
    have h' : (match (g.collections.getD (intEncoding k % g.collections.length)
          (Collection.create 0 0)).insert k v with
        | .error e => (Except.error e : Except PyErr Group)
        | .ok c => .ok ⟨g.collections.set
            (intEncoding k % g.collections.length) c⟩) = .ok g' := by
      unfold Group.insert at h
      rw [hroute] at h
      exact h
    cases hc : (g.collections.getD (intEncoding k % g.collections.length)
        (Collection.create 0 0)).insert k v with
    | error e =>
        rw [hc] at h'
        exact absurd h' (by simp)
    | ok c =>
        rw [hc] at h'
        have hg' : g' = ⟨g.collections.set
            (intEncoding k % g.collections.length) c⟩ :=
          (Except.ok.inj h').symm
        subst hg'
        have hilt : intEncoding k % g.collections.length < g.collections.length :=
          Nat.mod_lt _ hpos
        constructor
        · simp [Group.route, List.length_set]
        · simp [Group.get, Group.route, List.length_set, hlen,
            List.getD_eq_getElem?_getD, List.getElem?_set_eq_of_lt c hilt,
            Collection.get_insert hc]

/-- Witness for claim C3 on a two-shard group: key `[3]` routes to shard
`3 % 2 = 1` both before and after the insert, and `get` reads back the
inserted value 7. -/
theorem insert_routes_get_witness :
    (Group.mk [Collection.create 0 10, ⟨1, 10, false, [([3], 7)]⟩]).route
        (some [3])
      = (Group.mk [Collection.create 0 10, Collection.create 1 10]).route
        (some [3])
    ∧ (Group.mk [Collection.create 0 10, ⟨1, 10, false, [([3], 7)]⟩]).get
        [3] 0 = .ok 7 :=
  insert_routes_get ⟨[Collection.create 0 10, Collection.create 1 10]⟩
    ⟨[Collection.create 0 10, ⟨1, 10, false, [([3], 7)]⟩]⟩ [3] 7 0 (by rfl)

/-- Claim C7: constructing a Group from shards among which any two share a
UUID always fails with `KeyError`, whatever the arrangement and count of
shards; the error means no (partial) Group is returned. -/
theorem init_rejects_duplicate_uuid (cols : List Collection) (i j : Nat)
    (hi : i < cols.length) (hj : j < cols.length) (hij : i ≠ j)
    (huu : (cols.get ⟨i, hi⟩).uuid = (cols.get ⟨j, hj⟩).uuid) :
    Group.init cols = .error .keyError := by
  have hnd : ¬ (cols.map Collection.uuid).Nodup := by
    intro hnodup
    have hmi : i < (cols.map Collection.uuid).length := by simpa using hi
    have hmj : j < (cols.map Collection.uuid).length := by simpa using hj
    have hmem : (cols.map Collection.uuid).get ⟨i, hmi⟩
        = (cols.map Collection.uuid).get ⟨j, hmj⟩ := by
      simpa [List.get_eq_getElem, List.getElem_map] using huu
    have : (⟨i, hmi⟩ : Fin (cols.map Collection.uuid).length) = ⟨j, hmj⟩ :=
      (List.Nodup.get_inj_iff hnodup).mp hmem
    exact hij (congrArg Fin.val this)
  have hcond : (cols.map Collection.uuid).dedup.length ≠ cols.length := by
    intro heq
    have hlen : (cols.map Collection.uuid).dedup.length
        = (cols.map Collection.uuid).length := by
      simpa [List.length_map] using heq
    have hdedup : (cols.map Collection.uuid).dedup = cols.map Collection.uuid :=
      (List.dedup_sublist (cols.map Collection.uuid)).eq_of_length hlen
    exact hnd (hdedup ▸ List.nodup_dedup (cols.map Collection.uuid))
  unfold Group.init
  rw [if_pos hcond]

/-- Witness for claim C7: two shards both carrying UUID 0 are rejected. -/
theorem init_rejects_duplicate_uuid_witness :
    Group.init [⟨0, 5, false, []⟩, ⟨0, 7, false, []⟩] = .error .keyError :=
  init_rejects_duplicate_uuid [⟨0, 5, false, []⟩, ⟨0, 7, false, []⟩] 0 1
    (by decide) (by decide) (by decide) (by rfl)

/-- Claim C8: the spec says `popitem()` either returns a pair from the
routed shard or fails with the empty-collection error.  The `groupfn`
decorator extracts the routing key from the call's arguments, but
`popitem` takes none, so the key is `None` and `None.encode()` raises
`AttributeError` on every group, before any shard is consulted. -/
theorem popitem_always_raises (g : Group) :
    g.popitem = .error .attributeError := rfl

/-- Claim C9: whenever reading `Group.status` yields a value, that value
is the maximum (most severe) of the shards' individual statuses — it
bounds every shard's current status and is attained by some shard.  The
value is recomputed from the shards' state on each read: `status` is a
pure function of the current `collections`, with no cached field. -/
theorem status_is_max_of_shards (g : Group) (m : Nat)
    (h : g.status = .ok m) :
    (∀ c ∈ g.collections, c.status ≤ m)
      ∧ ∃ c ∈ g.collections, c.status = m := by
  unfold Group.status at h
  cases hcols : g.collections with
  | nil => rw [hcols] at h; simp at h
  | cons c0 rest =>
      rw [hcols] at h
      simp only [List.map_cons] at h
      have hm : (rest.map Collection.status).foldl max c0.status = m :=
        Except.ok.inj h
      constructor
      · intro c hc
        rcases List.mem_cons.mp hc with hh | hh
        · subst hh
          exact hm ▸ le_foldl_max _ _
        · exact hm ▸ foldl_max_le_of_mem
            (List.mem_map_of_mem Collection.status hh) _
      · rcases foldl_max_mem (rest.map Collection.status) c0.status with hh | hh
        · exact ⟨c0, List.mem_cons_self c0 rest, by rw [← hm, hh]⟩
        · rcases List.mem_map.mp hh with ⟨c, hcm, hcs⟩
          exact ⟨c, List.mem_cons_of_mem c0 hcm, by rw [← hm, hcs]⟩

/-- Witness for claim C9: in a two-shard group whose first shard is full
(status 3) the group status is 3 and it bounds the empty shard's
status. -/
theorem status_is_max_of_shards_witness :
    (Collection.create 1 10).status ≤ 3 :=
  (status_is_max_of_shards
    ⟨[⟨0, 1, false, [([0], 7)]⟩, Collection.create 1 10]⟩ 3 (by rfl)).1
    (Collection.create 1 10) (by simp)

/-- Claim C10: `Group.new` mutates the caller-supplied `custom` mapping in
place: after a successful call, the caller's mapping (returned here as the
second component) is the original mapping extended with an entry of
default capacity for every gap index below the effective size, rather
than being left unchanged. -/
theorem new_mutates_custom (size : Option Int) (mcs : Nat)
    (strictFlag : Bool) (l : List (Int × Nat)) (g : Group)
    (c' : List (Int × Nat)) (hne : l ≠ [])
    (h : Group.new size mcs strictFlag (some l) = .ok (g, c')) :
    (∃ ext, c' = l ++ ext)
      ∧ ∀ k : Int, 0 ≤ k →
          k < Group.effectiveSize size (l.map Prod.fst) →
          k ∉ l.map Prod.fst → (k, mcs) ∈ c' := by
  obtain ⟨-, -, hc'⟩ := new_custom_ok size mcs strictFlag l g c' hne h
  constructor
  · exact ⟨_, hc'⟩
  · intro k hk0 hklt hknot
    rw [hc']
    unfold Group.fillGaps
    refine List.mem_append_right _ ?_
    refine List.mem_map.mpr ⟨k, List.mem_filter.mpr ⟨?_, ?_⟩, rfl⟩
    · exact mem_intRange.mpr ⟨hk0, by omega⟩
    · simp only [Bool.not_eq_true', decide_eq_false_iff_not]
      exact hknot

/-- Witness for claim C10: with `custom = {0: 10, 2: 5}` and no explicit
size, the caller's mapping afterwards contains the synthesized entry
`(1, 100)` for the gap index 1. -/
theorem new_mutates_custom_witness :
    ((1 : Int), 100) ∈ ([((0 : Int), 10), (2, 5), (1, 100)] : List (Int × Nat)) :=
  (new_mutates_custom none 100 false [((0 : Int), 10), (2, 5)]
      ⟨Group.freshCollections [10, 5, 100]⟩
      [((0 : Int), 10), (2, 5), (1, 100)]
      (by simp) (by rfl)).2 1 (by decide) (by decide) (by decide)

/-- Claim C4, counterexample: the claim computes the effective size of a
custom-layout build without explicit `size` as the highest custom index —
for `custom = {0: 10, 2: 5}` that predicts 2 shards, but the build yields
3. -/
theorem new_custom_shard_count_cex :
    (Group.new none 100 false (some [((0 : Int), 10), (2, 5)])).map
      (fun p => p.1.collections.length) ≠ .ok 2 := by
  intro hcontra
  have h3 : (Group.new none 100 false (some [((0 : Int), 10), (2, 5)])).map
      (fun p => p.1.collections.length) = .ok 3 := rfl
  rw [h3] at hcontra
  exact absurd (Except.ok.inj hcontra) (by decide)

/-- Claim C4 (amended): for a successful custom-layout build whose keys
are distinct and non-negative, the shard sequence of the returned Group
has length `total_shards` when `total_shards` is given and every custom
key is strictly below it, and `highest_index + 1` (one more than the
highest custom index, not the highest index itself) when `total_shards`
is absent.  The sequence is positional, so its indices are exactly
`0 .. length-1`. -/
theorem new_custom_shard_count (size : Option Int) (mcs : Nat)
    (strictFlag : Bool) (l : List (Int × Nat)) (g : Group)
    (c' : List (Int × Nat))
    (hne : l ≠ []) (hnodup : (l.map Prod.fst).Nodup)
    (hpos : ∀ k ∈ l.map Prod.fst, 0 ≤ k)
    (hlt : ∀ s : Int, size = some s → ∀ k ∈ l.map Prod.fst, k < s)
    (h : Group.new size mcs strictFlag (some l) = .ok (g, c')) :
    g.collections.length = match size with
      | some s => s.toNat
      | none => (Group.listMax (l.map Prod.fst)).toNat + 1 := by
  obtain ⟨-, hg, -⟩ := new_custom_ok size mcs strictFlag l g c' hne h
  have hlen : g.collections.length
      = l.length + ((Group.intRange
          (Group.effectiveSize size (l.map Prod.fst)).toNat).filter
          (fun m => !(decide (m ∈ l.map Prod.fst)))).length := by
    rw [hg]
    show (Group.freshCollections ((Group.fillGaps
        (Group.effectiveSize size (l.map Prod.fst)).toNat mcs l).map
          Prod.snd)).length = _
    rw [freshCollections_length, List.length_map]
    unfold Group.fillGaps
    rw [List.length_append, List.length_map]
  have hlpos : 0 < l.length := List.length_pos.mpr hne
  cases size with
  | some s =>
      by_cases hs0 : s = 0
      · exfalso
        cases l with
        | nil => exact hne rfl
        | cons p t =>
            have hk := hlt s rfl p.1 (by simp)
            have hk0 := hpos p.1 (by simp)
            omega
      · have heff : Group.effectiveSize (some s) (l.map Prod.fst) = s := by
          unfold Group.effectiveSize Group.falsySize
          simp [hs0]
        rw [heff] at hlen
        have hsub : ∀ k ∈ l.map Prod.fst, 0 ≤ k ∧ k < ((s.toNat : Nat) : Int) :=
          fun k hk => ⟨hpos k hk, by
            have h1 := hlt s rfl k hk
            have h2 := hpos k hk
            omega⟩
        have hfP := length_filter_mem hnodup hsub
        rw [List.length_map] at hfP
        have hsplit : (Group.intRange s.toNat).length
            = ((Group.intRange s.toNat).filter
                (fun m => decide (m ∈ l.map Prod.fst))).length
              + ((Group.intRange s.toNat).filter
                (fun m => !(decide (m ∈ l.map Prod.fst)))).length :=
          List.length_eq_length_filter_add _
        have hrange : (Group.intRange s.toNat).length = s.toNat := by
          simp [Group.intRange]
        show g.collections.length = s.toNat
        omega
  | none =>
      have hkeysne : l.map Prod.fst ≠ [] := by
        simpa [List.map_eq_nil_iff] using hne
      have heff : Group.effectiveSize none (l.map Prod.fst)
          = Group.listMax (l.map Prod.fst) := rfl
      rw [heff] at hlen
      have hfP := length_filter_mem_below_max hkeysne hnodup hpos
      rw [List.length_map] at hfP
      have hsplit : (Group.intRange (Group.listMax (l.map Prod.fst)).toNat).length
          = ((Group.intRange (Group.listMax (l.map Prod.fst)).toNat).filter
              (fun m => decide (m ∈ l.map Prod.fst))).length
            + ((Group.intRange (Group.listMax (l.map Prod.fst)).toNat).filter
              (fun m => !(decide (m ∈ l.map Prod.fst)))).length :=
        List.length_eq_length_filter_add _
      have hrange : (Group.intRange (Group.listMax (l.map Prod.fst)).toNat).length
          = (Group.listMax (l.map Prod.fst)).toNat := by
        simp [Group.intRange]
      show g.collections.length = (Group.listMax (l.map Prod.fst)).toNat + 1
      omega

/-- Witness for the amended claim C4: `custom = {0: 10, 2: 5}` with
explicit `size = 3` (all keys below 3) yields exactly 3 shards. -/
theorem new_custom_shard_count_witness :
    (Group.mk (Group.freshCollections [10, 5, 100])).collections.length = 3 :=
  new_custom_shard_count (some 3) 100 false [((0 : Int), 10), (2, 5)]
    ⟨Group.freshCollections [10, 5, 100]⟩ [((0 : Int), 10), (2, 5), (1, 100)]
    (by simp) (by decide)
    (by
      intro k hk
      simp at hk
      rcases hk with rfl | rfl <;> decide)
    (by
      intro s hs k hk
      cases hs
      simp at hk
      rcases hk with rfl | rfl <;> decide)
    (by rfl)

end Citrine
